import Mathlib

/-!
Verification of the laminate stiffness engine of `mimo_composipy`
(`src/mimo_composipy/laminate_class.py`).

The Python class `Laminate` takes a layup — a list of `(angle, ply)` pairs —
and derives, as lazy properties, the ply-boundary coordinates `z_position`,
the rotated ply stiffness list `Q_layup`, and the laminate stiffness matrices
`A`, `B`, `D`.  We embed each property as a Lean function over an arbitrary
field `K` of scalars; the trigonometric functions and the constant π used by
the rotation are passed in a `Trig` bundle so that the definitions stay
executable, and theorems about the real program instantiate the bundle with
`Real.cos`, `Real.sin` and `Real.pi`.
-/

namespace MimoComposipy

/-- A 3×3 matrix of scalars, the shape of every stiffness matrix involved. -/
abbrev Mat3 (K : Type) := Matrix (Fin 3) (Fin 3) K

/-- Modelled from the spec: the `Ply` class lives in `ply_class.py`, which is
not part of the provided sources.  Per the spec (§3, §6) a Ply Material is an
immutable value exposing a `thickness` and a 3×3 reduced stiffness matrix;
the laminate code reads exactly the attributes `thickness` and `Q_0`. -/
structure Ply (K : Type) where
  thickness : K
  Q_0 : Mat3 K
  deriving Repr

/-- Decidable equality of plies (structural, matching the modelled value
semantics of a Ply Material). -/
instance {K : Type} [DecidableEq K] : DecidableEq (Ply K) := fun p q =>
  decidable_of_iff (p.thickness = q.thickness ∧ p.Q_0 = q.Q_0) (by
    cases p; cases q; simp)

/-- A layup: the ordered list of (angle in degrees, ply) stacking entries. -/
abbrev Layup (K : Type) := List (K × Ply K)

/-- The trigonometric interface used by the rotation step: `np.cos`, `np.sin`
and `np.pi` in the source.  Theorems about the real program instantiate it
with `Real.cos`, `Real.sin`, `Real.pi`. -/
structure Trig (K : Type) where
  cos : K → K
  sin : K → K
  pi : K

variable {K : Type} [Field K]

/-- The stress-transformation matrix `T_real` built in `Q_layup`:
`[[c²,s²,2cs],[s²,c²,-2cs],[-cs,cs,c²-s²]]`. -/
def T_real (c s : K) : Mat3 K :=
  !![c ^ 2, s ^ 2, 2 * c * s;
     s ^ 2, c ^ 2, -(2 * c * s);
     -(c * s), c * s, c ^ 2 - s ^ 2]

/-- The strain-transformation matrix `T_engineering` built in `Q_layup`:
`[[c²,s²,cs],[s²,c²,-cs],[-2cs,2cs,c²-s²]]`. -/
def T_engineering (c s : K) : Mat3 K :=
  !![c ^ 2, s ^ 2, c * s;
     s ^ 2, c ^ 2, -(c * s);
     -(2 * c * s), 2 * c * s, c ^ 2 - s ^ 2]

/-- The matrix `T_stress` exactly as the spec writes it (§4.3), to be compared
with the source's `T_real`. -/
def T_stress_spec (c s : K) : Mat3 K :=
  !![c ^ 2, s ^ 2, 2 * c * s;
     s ^ 2, c ^ 2, -(2 * c * s);
     -(c * s), c * s, c ^ 2 - s ^ 2]

/-- The matrix `T_strain` exactly as the spec writes it (§4.3), to be compared
with the source's `T_engineering`. -/
def T_strain_spec (c s : K) : Mat3 K :=
  !![c ^ 2, s ^ 2, c * s;
     s ^ 2, c ^ 2, -(c * s);
     -(2 * c * s), 2 * c * s, c ^ 2 - s ^ 2]

/-- Matrix inverse as `np.linalg.inv` computes it on an invertible input:
the reciprocal of the determinant times the adjugate. -/
def matInv (M : Mat3 K) : Mat3 K := M.det⁻¹ • M.adjugate

/-- The rotated stiffness of one ply: `inv(T_real) @ Q_0 @ T_engineering`. -/
def Qbar (c s : K) (Q0 : Mat3 K) : Mat3 K :=
  matInv (T_real c s) * Q0 * T_engineering c s

/-- cosine of the ply angle converted to radians: `np.cos(theta*np.pi/180)`. -/
def cAngle (tr : Trig K) (theta : K) : K := tr.cos (theta * tr.pi / 180)

/-- sine of the ply angle converted to radians: `np.sin(theta*np.pi/180)`. -/
def sAngle (tr : Trig K) (theta : K) : K := tr.sin (theta * tr.pi / 180)

/-- The `Q_layup` property: one rotated stiffness matrix per stacking entry,
in layup order. -/
def Q_layup (tr : Trig K) (l : Layup K) : List (Mat3 K) :=
  l.map fun e => Qbar (cAngle tr e.1) (sAngle tr e.1) e.2.Q_0

/-- The running total-thickness loop at the head of the `z_position`
property: `total_thickness = 0; for t in layup: total_thickness += t[1].thickness`. -/
def totalThickness (l : Layup K) : K :=
  l.foldl (fun acc e => acc + e.2.thickness) 0

/-- The boundary-coordinate loop of `z_position`: starting from `current_z`,
record the running coordinate before and after adding each ply thickness. -/
def zFrom (z : K) : Layup K → List K
  | [] => [z]
  | e :: rest => z :: zFrom (z + e.2.thickness) rest

/-- The `z_position` property: the N+1 ply boundary coordinates, starting at
`-total_thickness/2`. -/
def z_position (l : Layup K) : List K :=
  zFrom (-(totalThickness l) / 2) l

/-- The shared accumulation loop of the `A`, `B`, `D` properties:
`for i in enumerate(Q_layup): acc += w(z[i], z[i+1]) * Q_i`, with the weight
`w` depending on which matrix is being built. -/
def abdGo (w : K → K → K) (zs : List K) : Nat → List (Mat3 K) → Mat3 K → Mat3 K
  | _, [], acc => acc
  | k, q :: rest, acc =>
      abdGo w zs (k + 1) rest (acc + w (zs.getD k 0) (zs.getD (k + 1) 0) • q)

/-- The `A` property: extensional stiffness, weight `zk1 - zk0`. -/
def Amat (tr : Trig K) (l : Layup K) : Mat3 K :=
  abdGo (fun zk0 zk1 => zk1 - zk0) (z_position l) 0 (Q_layup tr l) 0

/-- The `B` property: coupling stiffness, weight `(1/2)*(zk1² - zk0²)`. -/
def Bmat (tr : Trig K) (l : Layup K) : Mat3 K :=
  abdGo (fun zk0 zk1 => 1 / 2 * (zk1 ^ 2 - zk0 ^ 2)) (z_position l) 0 (Q_layup tr l) 0

/-- The `D` property: bending stiffness, weight `(1/3)*(zk1³ - zk0³)`. -/
def Dmat (tr : Trig K) (l : Layup K) : Mat3 K :=
  abdGo (fun zk0 zk1 => 1 / 3 * (zk1 ^ 3 - zk0 ^ 3)) (z_position l) 0 (Q_layup tr l) 0

/-- The list of ply thicknesses of a layup. -/
def tlist (l : Layup K) : List K := l.map fun e => e.2.thickness

/-!
Dynamic values for the construction-time validation.  `Laminate.__init__`
receives an arbitrary Python object; it checks `isinstance(layup, list)` and
then, for each entry `ply` of the list, evaluates `ply[0]` and `ply[1]` and
checks `isinstance(ply[0], numbers.Real)` and `isinstance(ply[1], Ply)`.
An entry need not be a pair: indexing a non-subscriptable entry raises
`TypeError`, indexing past the end of a short tuple raises `IndexError`,
and a tuple longer than two simply has its extra components ignored.  We
therefore model an entry as an arbitrary dynamic value — a real number, a
`Ply` object, a tuple/list of dynamic values, or some other atom — and a
candidate layup as either a genuine list of such values or a non-list
object.
-/

/-- A dynamic (Python) value: a real number, a `Ply` object, a tuple or list
of values (subscriptable), or any other non-subscriptable atom (`None`, a
dict, ...). -/
inductive PyVal (K : Type) where
  | real (x : K)
  | plyObj (p : Ply K)
  | tup (items : List (PyVal K))
  | otherAtom

/-- A candidate constructor argument: a genuine list of entry values, or
some object that is not a list (a tuple of pairs, a dict, ...). -/
inductive PyLayup (K : Type) where
  | pyList (entries : List (PyVal K))
  | nonList

/-- The exceptions `__init__` can propagate: the two `ValueError`s of the
source (tagged with the offending entry interpolated into the message), the
`ValueError` for a non-list argument, and the `TypeError`/`IndexError` that
indexing an entry may raise before any isinstance check runs. -/
inductive LamError (K : Type) where
  | notAList
  | badAngle (entry : PyVal K)
  | badPly (entry : PyVal K)
  | typeError
  | indexError

/-- Which of the exceptions are the `ValueError` the spec calls
`InvalidInputError`: the two entry checks and the list check; `TypeError`
and `IndexError` are different exception classes. -/
def isInvalidInput : LamError K → Bool
  | .notAList => true
  | .badAngle _ => true
  | .badPly _ => true
  | .typeError => false
  | .indexError => false

/-- The check `isinstance(·, numbers.Real)`. -/
def isReal : PyVal K → Bool
  | .real _ => true
  | _ => false

/-- The check `isinstance(·, Ply)`. -/
def isPly : PyVal K → Bool
  | .plyObj _ => true
  | _ => false

/-- The claim's notion of a pair: a tuple/list of exactly two components. -/
def isPair : PyVal K → Bool
  | .tup items => items.length == 2
  | _ => false

/-- Python indexing `v[n]`: a tuple/list yields its n-th component or raises
`IndexError` past the end; every other value raises `TypeError`. -/
def subscript : PyVal K → Nat → Except (LamError K) (PyVal K)
  | .tup items, n =>
      match items.get? n with
      | some v => .ok v
      | none => .error .indexError
  | _, _ => .error .typeError

/-- One iteration of the validation loop of `__init__` on entry `ply`:
evaluate `ply[0]` (which may itself raise), check it is a real number,
evaluate `ply[1]`, check it is a `Ply`; the first failure aborts. -/
def checkEntry (e : PyVal K) : Except (LamError K) Unit :=
  match subscript e 0 with
  | .error err => .error err
  | .ok v0 =>
      if isReal v0 then
        match subscript e 1 with
        | .error err => .error err
        | .ok v1 => if isPly v1 then .ok () else .error (.badPly e)
      else .error (.badAngle e)

/-- The validation loop of `__init__` over the entries, in order. -/
def validateLayup : List (PyVal K) → Except (LamError K) Unit
  | [] => .ok ()
  | e :: rest =>
      match checkEntry e with
      | .ok _ => validateLayup rest
      | .error err => .error err

/-- `Laminate.__init__`: raise unless the argument is a list whose entries
all pass the per-entry checks; on success store the layup as given. -/
def laminateInit : PyLayup K → Except (LamError K) (List (PyVal K))
  | .nonList => .error .notAList
  | .pyList es =>
      match validateLayup es with
      | .ok _ => .ok es
      | .error err => .error err

/-- True exactly when construction raises. -/
def raisesOn (r : Except (LamError K) (List (PyVal K))) : Bool :=
  match r with
  | .error _ => true
  | .ok _ => false

/-!
Stateful model of the memoization.  `__init__` stores the layup and sets the
five private cache attributes to `None`.  Each property access returns a value
and the successor state.  The `z_position` property body never reads or writes
`self._z_position`; the other four properties fill their cache on first
access.
-/

/-- The attribute state of a constructed `Laminate` object. -/
structure LamState (K : Type) where
  layup : Layup K
  z_cache : Option (List K)
  q_cache : Option (List (Mat3 K))
  a_cache : Option (Mat3 K)
  b_cache : Option (Mat3 K)
  d_cache : Option (Mat3 K)

/-- The state established by `__init__` on success: every cache is `None`. -/
def initLam (l : Layup K) : LamState K := ⟨l, none, none, none, none, none⟩

/-- Access of the `z_position` property: recompute from the layup; the body
neither reads nor writes `self._z_position`. -/
def zAccess (s : LamState K) : List K × LamState K :=
  (z_position s.layup, s)

/-- Access of the `Q_layup` property: return the cache if filled, otherwise
compute, store and return. -/
def qAccess (tr : Trig K) (s : LamState K) : List (Mat3 K) × LamState K :=
  match s.q_cache with
  | some q => (q, s)
  | none =>
      let q := Q_layup tr s.layup
      (q, { s with q_cache := some q })

/-- Access of the `A` property: on a cold cache, reading `self.Q_layup`
fills the `Q_layup` cache as a side effect, then the accumulation runs and
the result is stored. -/
def aAccess (tr : Trig K) (s : LamState K) : Mat3 K × LamState K :=
  match s.a_cache with
  | some a => (a, s)
  | none =>
      let qs := qAccess tr s
      let a := abdGo (fun zk0 zk1 => zk1 - zk0) (z_position qs.2.layup) 0 qs.1 0
      (a, { qs.2 with a_cache := some a })

/-- Access of the `B` property, analogous to `A`. -/
def bAccess (tr : Trig K) (s : LamState K) : Mat3 K × LamState K :=
  match s.b_cache with
  | some b => (b, s)
  | none =>
      let qs := qAccess tr s
      let b := abdGo (fun zk0 zk1 => 1 / 2 * (zk1 ^ 2 - zk0 ^ 2)) (z_position qs.2.layup) 0 qs.1 0
      (b, { qs.2 with b_cache := some b })

/-- Access of the `D` property, analogous to `A`. -/
def dAccess (tr : Trig K) (s : LamState K) : Mat3 K × LamState K :=
  match s.d_cache with
  | some d => (d, s)
  | none =>
      let qs := qAccess tr s
      let d := abdGo (fun zk0 zk1 => 1 / 3 * (zk1 ^ 3 - zk0 ^ 3)) (z_position qs.2.layup) 0 qs.1 0
      (d, { qs.2 with d_cache := some d })

/-- `Laminate.__eq__` between two laminate objects: compare the stored
layups with `==`; nothing else is read. -/
def lamEq [DecidableEq K] (s1 s2 : LamState K) : Bool :=
  decide (s1.layup = s2.layup)

/-- A concrete ply over ℚ, used to instantiate theorems with hypotheses. -/
def plyQ : Ply ℚ := ⟨1, 1⟩

/-- A concrete one-ply layup over ℚ. -/
def demoLayupQ : Layup ℚ := [(0, plyQ)]

/-- A concrete ply over ℝ, used to instantiate theorems with hypotheses. -/
def plyR : Ply ℝ := ⟨1, 1⟩

/-- A concrete two-ply midplane-symmetric layup over ℝ. -/
def demoSymLayup : Layup ℝ := [(0, plyR), (0, plyR)]

/-!
Helper lemmas about the embedded loops.
-/

theorem foldl_add_eq {α : Type} (f : α → K) :
    ∀ (l : List α) (a : K), l.foldl (fun acc e => acc + f e) a = a + (l.map f).sum
  | [], a => by simp
  | e :: rest, a => by
      simp only [List.foldl_cons, List.map_cons, List.sum_cons]
      rw [foldl_add_eq f rest (a + f e)]
      ring

theorem totalThickness_eq_sum (l : Layup K) : totalThickness l = (tlist l).sum := by
  simpa using foldl_add_eq (K := K) (fun e : K × Ply K => e.2.thickness) l 0

theorem zFrom_length : ∀ (l : Layup K) (z : K), (zFrom z l).length = l.length + 1
  | [], z => rfl
  | e :: rest, z => by
      simp [zFrom, zFrom_length rest]

theorem z_position_length (l : Layup K) : (z_position l).length = l.length + 1 :=
  zFrom_length l _

theorem list_sum_eq_range_sum :
    ∀ tl : List K, tl.sum = ∑ j ∈ Finset.range tl.length, tl.getD j 0
  | [] => by simp
  | a :: rest => by
      rw [List.sum_cons, list_sum_eq_range_sum rest, List.length_cons,
        Finset.sum_range_succ']
      simp [add_comm]

theorem zFrom_getD :
    ∀ (l : Layup K) (z : K) (k : Nat), k ≤ l.length →
      (zFrom z l).getD k 0 = z + ∑ j ∈ Finset.range k, (tlist l).getD j 0
  | [], z, k, hk => by
      have hk0 : k = 0 := Nat.le_zero.mp hk
      subst hk0
      simp [zFrom]
  | e :: rest, z, 0, _ => by simp [zFrom]
  | e :: rest, z, k + 1, hk => by
      have hk' : k ≤ rest.length := by simpa using hk
      simp only [zFrom, List.getD_cons_succ]
      rw [zFrom_getD rest (z + e.2.thickness) k hk', Finset.sum_range_succ']
      simp [tlist, add_comm, add_assoc, add_left_comm]

theorem z_position_getD (l : Layup K) (k : Nat) (hk : k ≤ l.length) :
    (z_position l).getD k 0 =
      -(totalThickness l) / 2 + ∑ j ∈ Finset.range k, (tlist l).getD j 0 :=
  zFrom_getD l _ k hk

theorem tlist_length (l : Layup K) : (tlist l).length = l.length := by
  simp [tlist]

theorem z_position_last (l : Layup K) (h2 : (2 : K) ≠ 0) :
    (z_position l).getD l.length 0 = totalThickness l / 2 := by
  rw [z_position_getD l l.length le_rfl, ← tlist_length l, ← list_sum_eq_range_sum,
    ← totalThickness_eq_sum]
  field_simp
  ring

theorem z_position_diff (l : Layup K) (i : Nat) (hi : i < l.length) :
    (z_position l).getD (i + 1) 0 - (z_position l).getD i 0 = (tlist l).getD i 0 := by
  rw [z_position_getD l (i + 1) hi, z_position_getD l i (le_of_lt hi),
    Finset.sum_range_succ]
  ring

theorem tlist_getD (l : Layup K) (i : Nat) (hi : i < l.length) :
    (tlist l).getD i 0 = (l.get ⟨i, hi⟩).2.thickness := by
  rw [tlist, List.getD_eq_get _ _ (by simpa using hi), List.get_map]

theorem zFrom_head (l : Layup K) (z : K) : (zFrom z l).getD 0 0 = z := by
  cases l <;> simp [zFrom]

set_option maxRecDepth 4000 in
theorem abdGo_eq_sum (w : K → K → K) (zs : List K) :
    ∀ (Q : List (Mat3 K)) (k : Nat) (acc : Mat3 K),
      abdGo w zs k Q acc =
        acc + ∑ i ∈ Finset.range Q.length,
          w (zs.getD (k + i) 0) (zs.getD (k + i + 1) 0) • Q.getD i 0
  | [], k, acc => by simp [abdGo]
  | q :: rest, k, acc => by
      rw [abdGo, abdGo_eq_sum w zs rest (k + 1), List.length_cons,
        Finset.sum_range_succ']
      have h1 : ∀ i ∈ Finset.range rest.length,
          w (zs.getD (k + 1 + i) 0) (zs.getD (k + 1 + i + 1) 0) • rest.getD i 0 =
            w (zs.getD (k + (i + 1)) 0) (zs.getD (k + (i + 1) + 1) 0) •
              (q :: rest).getD (i + 1) 0 := by
        intro i _
        have hik : k + 1 + i = k + (i + 1) := by omega
        rw [hik, List.getD_cons_succ]
      rw [Finset.sum_congr rfl h1]
      simp only [Nat.add_zero, List.getD_cons_zero]
      abel

theorem Q_layup_length (tr : Trig K) (l : Layup K) : (Q_layup tr l).length = l.length := by
  simp [Q_layup]

theorem Q_layup_getD (tr : Trig K) (l : Layup K) (i : Nat) (hi : i < l.length) :
    (Q_layup tr l).getD i 0 =
      Qbar (cAngle tr (l.get ⟨i, hi⟩).1) (sAngle tr (l.get ⟨i, hi⟩).1)
        (l.get ⟨i, hi⟩).2.Q_0 := by
  rw [Q_layup, List.getD_eq_get _ _ (by simpa using hi), List.get_map]

theorem Amat_eq_sum (tr : Trig K) (l : Layup K) :
    Amat tr l = ∑ i ∈ Finset.range l.length,
      ((z_position l).getD (i + 1) 0 - (z_position l).getD i 0) •
        (Q_layup tr l).getD i 0 := by
  rw [Amat, abdGo_eq_sum, Q_layup_length, zero_add]
  exact Finset.sum_congr rfl fun i _ => by norm_num

theorem Bmat_eq_sum (tr : Trig K) (l : Layup K) :
    Bmat tr l = ∑ i ∈ Finset.range l.length,
      (1 / 2 * ((z_position l).getD (i + 1) 0 ^ 2 - (z_position l).getD i 0 ^ 2)) •
        (Q_layup tr l).getD i 0 := by
  rw [Bmat, abdGo_eq_sum, Q_layup_length, zero_add]
  exact Finset.sum_congr rfl fun i _ => by norm_num

theorem Dmat_eq_sum (tr : Trig K) (l : Layup K) :
    Dmat tr l = ∑ i ∈ Finset.range l.length,
      (1 / 3 * ((z_position l).getD (i + 1) 0 ^ 3 - (z_position l).getD i 0 ^ 3)) •
        (Q_layup tr l).getD i 0 := by
  rw [Dmat, abdGo_eq_sum, Q_layup_length, zero_add]
  exact Finset.sum_congr rfl fun i _ => by norm_num

/-!
Algebra of the rotation transform.
-/

theorem T_real_one_zero : T_real (1 : K) 0 = 1 := by
  rw [Matrix.one_fin_three, T_real]
  norm_num

theorem T_engineering_one_zero : T_engineering (1 : K) 0 = 1 := by
  rw [Matrix.one_fin_three, T_engineering]
  norm_num

theorem matInv_one : matInv (1 : Mat3 K) = 1 := by
  rw [matInv, Matrix.det_one, Matrix.adjugate_one, inv_one, one_smul]

theorem Qbar_one_zero (Q0 : Mat3 K) : Qbar (1 : K) 0 Q0 = Q0 := by
  rw [Qbar, T_real_one_zero, T_engineering_one_zero, matInv_one, one_mul, mul_one]

theorem T_real_neg_neg (c s : K) : T_real (-c) (-s) = T_real c s := by
  rw [T_real, T_real]
  congr 1 <;> ring

theorem T_engineering_neg_neg (c s : K) : T_engineering (-c) (-s) = T_engineering c s := by
  rw [T_engineering, T_engineering]
  congr 1 <;> ring

theorem Qbar_neg_neg (c s : K) (Q0 : Mat3 K) : Qbar (-c) (-s) Q0 = Qbar c s Q0 := by
  rw [Qbar, Qbar, T_real_neg_neg, T_engineering_neg_neg]

/-- The determinant of the stress transform is `(c² + s²)³`, so `T_real` is
genuinely invertible whenever `c` and `s` come from an angle. -/
theorem T_real_det (c s : K) : (T_real c s).det = (c ^ 2 + s ^ 2) ^ 3 := by
  rw [T_real, Matrix.det_fin_three]
  simp [Matrix.cons_val_zero, Matrix.cons_val_one]
  ring

/-- When `c² + s² = 1`, the modelled `np.linalg.inv` output is a true
two-sided inverse of the stress transform. -/
theorem matInv_T_real_mul (c s : K) (h : c ^ 2 + s ^ 2 = 1) :
    matInv (T_real c s) * T_real c s = 1 := by
  rw [matInv, Matrix.smul_mul, Matrix.adjugate_mul, T_real_det, h, one_pow, inv_one,
    one_smul, one_smul]

/-!
Helper lemmas about the validation loop.
-/

theorem checkEntry_real (x : K) :
    checkEntry (PyVal.real x) = Except.error LamError.typeError := rfl

theorem checkEntry_plyObj (p : Ply K) :
    checkEntry (PyVal.plyObj p) = Except.error LamError.typeError := rfl

theorem checkEntry_otherAtom :
    checkEntry (PyVal.otherAtom : PyVal K) = Except.error LamError.typeError := rfl

theorem checkEntry_nil :
    checkEntry (PyVal.tup ([] : List (PyVal K))) = Except.error LamError.indexError := rfl

theorem checkEntry_badAngle_eq (v0 : PyVal K) (rest : List (PyVal K))
    (h0 : isReal v0 = false) :
    checkEntry (PyVal.tup (v0 :: rest)) =
      Except.error (LamError.badAngle (PyVal.tup (v0 :: rest))) := by
  simp [checkEntry, subscript, h0]

theorem checkEntry_single (v0 : PyVal K) (h0 : isReal v0 = true) :
    checkEntry (PyVal.tup [v0]) = Except.error LamError.indexError := by
  simp [checkEntry, subscript, h0]

theorem checkEntry_pair_ok (v0 v1 : PyVal K) (rest : List (PyVal K))
    (h0 : isReal v0 = true) (h1 : isPly v1 = true) :
    checkEntry (PyVal.tup (v0 :: v1 :: rest)) = Except.ok () := by
  simp [checkEntry, subscript, h0, h1]

theorem checkEntry_badPly_eq (v0 v1 : PyVal K) (rest : List (PyVal K))
    (h0 : isReal v0 = true) (h1 : isPly v1 = false) :
    checkEntry (PyVal.tup (v0 :: v1 :: rest)) =
      Except.error (LamError.badPly (PyVal.tup (v0 :: v1 :: rest))) := by
  simp [checkEntry, subscript, h0, h1]

theorem checkEntry_ok_iff (e : PyVal K) :
    checkEntry e = Except.ok () ↔
      ∃ v0 v1, subscript e 0 = Except.ok v0 ∧ isReal v0 = true ∧
        subscript e 1 = Except.ok v1 ∧ isPly v1 = true := by
  cases e with
  | real x => simp [checkEntry_real, subscript]
  | plyObj p => simp [checkEntry_plyObj, subscript]
  | otherAtom => simp [checkEntry_otherAtom, subscript]
  | tup items =>
      match items with
      | [] => simp [checkEntry_nil, subscript]
      | [v0] =>
          cases h0 : isReal v0 with
          | false => simp [checkEntry_badAngle_eq v0 [] h0, subscript, h0]
          | true => simp [checkEntry_single v0 h0, subscript, h0]
      | v0 :: v1 :: rest =>
          cases h0 : isReal v0 with
          | false => simp [checkEntry_badAngle_eq v0 (v1 :: rest) h0, subscript, h0]
          | true =>
              cases h1 : isPly v1 with
              | false => simp [checkEntry_badPly_eq v0 v1 rest h0 h1, subscript, h0, h1]
              | true => simp [checkEntry_pair_ok v0 v1 rest h0 h1, subscript, h0, h1]

theorem checkEntry_badAngle_inv (e e' : PyVal K)
    (h : checkEntry e = Except.error (LamError.badAngle e')) :
    e' = e ∧ ∃ v0, subscript e 0 = Except.ok v0 ∧ isReal v0 = false := by
  cases e with
  | real x => rw [checkEntry_real] at h; simp at h
  | plyObj p => rw [checkEntry_plyObj] at h; simp at h
  | otherAtom => rw [checkEntry_otherAtom] at h; simp at h
  | tup items =>
      match items with
      | [] => rw [checkEntry_nil] at h; simp at h
      | v0 :: rest =>
          cases h0 : isReal v0 with
          | false =>
              rw [checkEntry_badAngle_eq v0 rest h0] at h
              simp only [Except.error.injEq, LamError.badAngle.injEq] at h
              subst h
              exact ⟨rfl, v0, by simp [subscript], h0⟩
          | true =>
              match rest with
              | [] => rw [checkEntry_single v0 h0] at h; simp at h
              | v1 :: rest2 =>
                  cases h1 : isPly v1 with
                  | false => rw [checkEntry_badPly_eq v0 v1 rest2 h0 h1] at h; simp at h
                  | true => rw [checkEntry_pair_ok v0 v1 rest2 h0 h1] at h; simp at h

theorem checkEntry_badPly_inv (e e' : PyVal K)
    (h : checkEntry e = Except.error (LamError.badPly e')) :
    e' = e ∧ ∃ v0 v1, subscript e 0 = Except.ok v0 ∧ isReal v0 = true ∧
      subscript e 1 = Except.ok v1 ∧ isPly v1 = false := by
  cases e with
  | real x => rw [checkEntry_real] at h; simp at h
  | plyObj p => rw [checkEntry_plyObj] at h; simp at h
  | otherAtom => rw [checkEntry_otherAtom] at h; simp at h
  | tup items =>
      match items with
      | [] => rw [checkEntry_nil] at h; simp at h
      | v0 :: rest =>
          cases h0 : isReal v0 with
          | false => rw [checkEntry_badAngle_eq v0 rest h0] at h; simp at h
          | true =>
              match rest with
              | [] => rw [checkEntry_single v0 h0] at h; simp at h
              | v1 :: rest2 =>
                  cases h1 : isPly v1 with
                  | false =>
                      rw [checkEntry_badPly_eq v0 v1 rest2 h0 h1] at h
                      simp only [Except.error.injEq, LamError.badPly.injEq] at h
                      subst h
                      exact ⟨rfl, v0, v1, by simp [subscript], h0, by simp [subscript], h1⟩
                  | true => rw [checkEntry_pair_ok v0 v1 rest2 h0 h1] at h; simp at h

theorem checkEntry_typeError_inv (e : PyVal K)
    (h : checkEntry e = Except.error LamError.typeError) :
    subscript e 0 = Except.error LamError.typeError ∧ isPair e = false := by
  cases e with
  | real x => exact ⟨rfl, rfl⟩
  | plyObj p => exact ⟨rfl, rfl⟩
  | otherAtom => exact ⟨rfl, rfl⟩
  | tup items =>
      exfalso
      match items with
      | [] => rw [checkEntry_nil] at h; simp at h
      | v0 :: rest =>
          cases h0 : isReal v0 with
          | false => rw [checkEntry_badAngle_eq v0 rest h0] at h; simp at h
          | true =>
              match rest with
              | [] => rw [checkEntry_single v0 h0] at h; simp at h
              | v1 :: rest2 =>
                  cases h1 : isPly v1 with
                  | false => rw [checkEntry_badPly_eq v0 v1 rest2 h0 h1] at h; simp at h
                  | true => rw [checkEntry_pair_ok v0 v1 rest2 h0 h1] at h; simp at h

theorem checkEntry_indexError_inv (e : PyVal K)
    (h : checkEntry e = Except.error LamError.indexError) :
    isPair e = false := by
  cases e with
  | real x => rw [checkEntry_real] at h; simp at h
  | plyObj p => rw [checkEntry_plyObj] at h; simp at h
  | otherAtom => rw [checkEntry_otherAtom] at h; simp at h
  | tup items =>
      match items with
      | [] => rfl
      | [v0] => rfl
      | v0 :: v1 :: rest =>
          exfalso
          cases h0 : isReal v0 with
          | false => rw [checkEntry_badAngle_eq v0 (v1 :: rest) h0] at h; simp at h
          | true =>
              cases h1 : isPly v1 with
              | false => rw [checkEntry_badPly_eq v0 v1 rest h0 h1] at h; simp at h
              | true => rw [checkEntry_pair_ok v0 v1 rest h0 h1] at h; simp at h

theorem validate_ok_iff :
    ∀ es : List (PyVal K),
      validateLayup es = Except.ok () ↔ ∀ e ∈ es, checkEntry e = Except.ok ()
  | [] => by simp [validateLayup]
  | e :: rest => by
      cases hc : checkEntry e with
      | ok u =>
          cases u
          simp [validateLayup, hc, validate_ok_iff rest, List.forall_mem_cons]
      | error err =>
          simp [validateLayup, hc, List.forall_mem_cons]

theorem validate_error_mem :
    ∀ es : List (PyVal K), ∀ err, validateLayup es = Except.error err →
      ∃ e ∈ es, checkEntry e = Except.error err
  | [], err, h => by simp [validateLayup] at h
  | e :: rest, err, h => by
      cases hc : checkEntry e with
      | ok u =>
          cases u
          simp only [validateLayup, hc] at h
          obtain ⟨e', he', hce⟩ := validate_error_mem rest err h
          exact ⟨e', by simp [he'], hce⟩
      | error err2 =>
          have heq : validateLayup (e :: rest) = Except.error err2 := by
            simp [validateLayup, hc]
          rw [heq] at h
          simp only [Except.error.injEq] at h
          subst h
          exact ⟨e, by simp, hc⟩

theorem validate_dichotomy (es : List (PyVal K)) :
    validateLayup es = Except.ok () ∨ ∃ err, validateLayup es = Except.error err := by
  cases h : validateLayup es with
  | ok u => cases u; exact Or.inl rfl
  | error err => exact Or.inr ⟨err, rfl⟩

/-!
Helper lemmas for midplane-symmetric layups.
-/

theorem sum_reflect_of_getD (tl : List K)
    (hpal : ∀ j, j < tl.length → tl.getD j 0 = tl.getD (tl.length - 1 - j) 0)
    (k : Nat) (hk : k ≤ tl.length) :
    (∑ j ∈ Finset.range k, tl.getD j 0) +
      (∑ j ∈ Finset.range (tl.length - k), tl.getD j 0) = tl.sum := by
  have hsplit : tl.sum =
      (∑ j ∈ Finset.range k, tl.getD j 0) +
        (∑ j ∈ Finset.range (tl.length - k), tl.getD (k + j) 0) := by
    rw [list_sum_eq_range_sum]
    have hn : tl.length = k + (tl.length - k) := by omega
    conv_lhs => rw [hn]
    rw [Finset.sum_range_add]
  have hrefl : (∑ j ∈ Finset.range (tl.length - k), tl.getD j 0) =
      (∑ j ∈ Finset.range (tl.length - k), tl.getD (k + j) 0) := by
    rw [← Finset.sum_range_reflect (fun j => tl.getD (k + j) 0) (tl.length - k)]
    refine Finset.sum_congr rfl fun j hj => ?_
    have hj' : j < tl.length - k := Finset.mem_range.mp hj
    have hidx : k + (tl.length - k - 1 - j) = tl.length - 1 - j := by omega
    rw [hidx, ← hpal j (by omega)]
  rw [hrefl, hsplit]

theorem z_position_reflect (l : Layup K) (h2 : (2 : K) ≠ 0)
    (hpal : ∀ j, j < l.length →
      (tlist l).getD j 0 = (tlist l).getD (l.length - 1 - j) 0)
    (k : Nat) (hk : k ≤ l.length) :
    (z_position l).getD (l.length - k) 0 = -((z_position l).getD k 0) := by
  have hlen : (tlist l).length = l.length := tlist_length l
  have hsum := sum_reflect_of_getD (tlist l) (by simpa [hlen] using hpal) k
    (by omega)
  rw [z_position_getD l (l.length - k) (by omega), z_position_getD l k hk,
    totalThickness_eq_sum l]
  rw [hlen] at hsum
  have hhalf : (tlist l).sum / 2 + (tlist l).sum / 2 = (tlist l).sum := by
    field_simp
    ring
  linear_combination hsum - hhalf

theorem Q_layup_getD_congr (tr : Trig K) (l : Layup K) (i j : Nat)
    (hi : i < l.length) (hj : j < l.length)
    (h : l.get ⟨i, hi⟩ = l.get ⟨j, hj⟩) :
    (Q_layup tr l).getD i 0 = (Q_layup tr l).getD j 0 := by
  rw [Q_layup_getD tr l i hi, Q_layup_getD tr l j hj, h]

/-!
The claims.
-/

/-- C1: for every laminate, the matrices A, B and D each start from the 3×3
zero matrix and are accumulated over the plies in layup order as
`A = Σ (z_{i+1} - z_i)·Q_layup[i]`, `B = Σ (1/2)(z_{i+1}² - z_i²)·Q_layup[i]`
and `D = Σ (1/3)(z_{i+1}³ - z_i³)·Q_layup[i]`, with `z_i = z_position[i]`. -/
theorem claim_C1_abd_accumulation (tr : Trig K) (l : Layup K) :
    Amat tr l = (∑ i ∈ Finset.range l.length,
      ((z_position l).getD (i + 1) 0 - (z_position l).getD i 0) •
        (Q_layup tr l).getD i 0) ∧
    Bmat tr l = (∑ i ∈ Finset.range l.length,
      (1 / 2 * ((z_position l).getD (i + 1) 0 ^ 2 - (z_position l).getD i 0 ^ 2)) •
        (Q_layup tr l).getD i 0) ∧
    Dmat tr l = (∑ i ∈ Finset.range l.length,
      (1 / 3 * ((z_position l).getD (i + 1) 0 ^ 3 - (z_position l).getD i 0 ^ 3)) •
        (Q_layup tr l).getD i 0) :=
  ⟨Amat_eq_sum tr l, Bmat_eq_sum tr l, Dmat_eq_sum tr l⟩

/-- C2: each entry of `Q_layup` equals `inverse(T_stress) · Q0 · T_strain`
with `c = cos(θ·π/180)` and `s = sin(θ·π/180)`, where `T_stress` and
`T_strain` are the transformation matrices as the spec writes them, and
`Q_layup` is in the same order as the layup. -/
theorem claim_C2_rotation_formula (l : Layup ℝ) (i : Nat) (hi : i < l.length) :
    (Q_layup ⟨Real.cos, Real.sin, Real.pi⟩ l).length = l.length ∧
    (Q_layup ⟨Real.cos, Real.sin, Real.pi⟩ l).getD i 0 =
      matInv (T_stress_spec (Real.cos ((l.get ⟨i, hi⟩).1 * Real.pi / 180))
          (Real.sin ((l.get ⟨i, hi⟩).1 * Real.pi / 180))) *
        (l.get ⟨i, hi⟩).2.Q_0 *
        T_strain_spec (Real.cos ((l.get ⟨i, hi⟩).1 * Real.pi / 180))
          (Real.sin ((l.get ⟨i, hi⟩).1 * Real.pi / 180)) := by
  refine ⟨Q_layup_length _ l, ?_⟩
  rw [Q_layup_getD _ l i hi]
  rfl

/-- Witness for C2 at the one-ply layup `[(0, plyR)]`. -/
theorem claim_C2_witness :
    (Q_layup ⟨Real.cos, Real.sin, Real.pi⟩ [((0 : ℝ), plyR)]).length = 1 ∧
    (Q_layup ⟨Real.cos, Real.sin, Real.pi⟩ [((0 : ℝ), plyR)]).getD 0 0 =
      matInv (T_stress_spec (Real.cos ((0 : ℝ) * Real.pi / 180))
          (Real.sin ((0 : ℝ) * Real.pi / 180))) *
        plyR.Q_0 *
        T_strain_spec (Real.cos ((0 : ℝ) * Real.pi / 180))
          (Real.sin ((0 : ℝ) * Real.pi / 180)) :=
  claim_C2_rotation_formula [((0 : ℝ), plyR)] 0 (by decide)

/-- C8: a ply with angle 0 degrees has `Q_layup[i] = Q_0` exactly: the
rotation is the identity transform at θ = 0. -/
theorem claim_C8_zero_angle (l : Layup ℝ) (i : Nat) (hi : i < l.length)
    (h0 : (l.get ⟨i, hi⟩).1 = 0) :
    (Q_layup ⟨Real.cos, Real.sin, Real.pi⟩ l).getD i 0 = (l.get ⟨i, hi⟩).2.Q_0 := by
  rw [Q_layup_getD _ l i hi]
  have hc : cAngle (⟨Real.cos, Real.sin, Real.pi⟩ : Trig ℝ) (l.get ⟨i, hi⟩).1 = 1 := by
    rw [cAngle, h0]
    simp
  have hs : sAngle (⟨Real.cos, Real.sin, Real.pi⟩ : Trig ℝ) (l.get ⟨i, hi⟩).1 = 0 := by
    rw [sAngle, h0]
    simp
  rw [hc, hs, Qbar_one_zero]

/-- Witness for C8 at the one-ply layup `[(0, plyR)]`. -/
theorem claim_C8_witness :
    (Q_layup ⟨Real.cos, Real.sin, Real.pi⟩ [((0 : ℝ), plyR)]).getD 0 0 = plyR.Q_0 :=
  claim_C8_zero_angle [((0 : ℝ), plyR)] 0 (by decide) rfl

/-- C9: the rotation applied at θ and at θ+180 degrees produces identical
rotated stiffness matrices: the transform is 180°-periodic. -/
theorem claim_C9_period (theta : ℝ) (Q0 : Mat3 ℝ) :
    Qbar (cAngle ⟨Real.cos, Real.sin, Real.pi⟩ (theta + 180))
        (sAngle ⟨Real.cos, Real.sin, Real.pi⟩ (theta + 180)) Q0 =
      Qbar (cAngle ⟨Real.cos, Real.sin, Real.pi⟩ theta)
        (sAngle ⟨Real.cos, Real.sin, Real.pi⟩ theta) Q0 := by
  have harg : (theta + 180) * Real.pi / 180 = theta * Real.pi / 180 + Real.pi := by
    ring
  have hc : cAngle (⟨Real.cos, Real.sin, Real.pi⟩ : Trig ℝ) (theta + 180) =
      -(cAngle (⟨Real.cos, Real.sin, Real.pi⟩ : Trig ℝ) theta) := by
    rw [cAngle, cAngle]
    show Real.cos ((theta + 180) * Real.pi / 180) = -Real.cos (theta * Real.pi / 180)
    rw [harg, Real.cos_add_pi]
  have hs : sAngle (⟨Real.cos, Real.sin, Real.pi⟩ : Trig ℝ) (theta + 180) =
      -(sAngle (⟨Real.cos, Real.sin, Real.pi⟩ : Trig ℝ) theta) := by
    rw [sAngle, sAngle]
    show Real.sin ((theta + 180) * Real.pi / 180) = -Real.sin (theta * Real.pi / 180)
    rw [harg, Real.sin_add_pi]
  rw [hc, hs, Qbar_neg_neg]

theorem laminateInit_pyList_eq (es : List (PyVal K)) :
    laminateInit (PyLayup.pyList es) =
      match validateLayup es with
      | .ok _ => .ok es
      | .error err => .error err := rfl

/-- C4 counterexample: the claim's "raises InvalidInputError exactly when
the layup is not an ordered sequence of pairs, or ..." fails on the code in
both directions.  The layup `[(0, ply, junk)]` — a list whose single entry
is a 3-tuple, not a pair, with extra component ignored by `ply[0]`/`ply[1]`
— is accepted without any error; and the layup `[5]` — whose entry is not
subscriptable and so not a pair either — aborts with `TypeError`, which is
not the `ValueError` modelling `InvalidInputError`. -/
theorem claim_C4_counterexample :
    (raisesOn (laminateInit (PyLayup.pyList
        [PyVal.tup [PyVal.real (0 : ℚ), PyVal.plyObj plyQ, PyVal.otherAtom]])) = false ∧
      isPair (PyVal.tup [PyVal.real (0 : ℚ), PyVal.plyObj plyQ, PyVal.otherAtom]) = false) ∧
    (laminateInit (PyLayup.pyList [PyVal.real (5 : ℚ)]) =
        Except.error LamError.typeError ∧
      isPair (PyVal.real (5 : ℚ)) = false ∧
      isInvalidInput (LamError.typeError : LamError ℚ) = false) :=
  ⟨⟨rfl, rfl⟩, rfl, rfl, rfl⟩

/-- C4 (amended): construction raises exactly when the argument is not a
list or some entry fails the element checks — `entry[0]` must exist and be
a real number (of any value, unrestricted) and `entry[1]` must exist and be
a Ply; entries need only be subscriptable with at least two components, the
extra components of a longer tuple being ignored.  The raised error is
`InvalidInputError` (identifying the offending entry) for a failed
isinstance check and for a non-list layup, but an entry that is not
subscriptable raises `TypeError` and a too-short entry raises `IndexError`
— both only for non-pair entries, and neither an `InvalidInputError`. -/
theorem claim_C4_amended :
    (laminateInit (PyLayup.nonList : PyLayup K) = Except.error LamError.notAList ∧
      isInvalidInput (LamError.notAList : LamError K) = true) ∧
    (∀ es : List (PyVal K),
      laminateInit (PyLayup.pyList es) = Except.ok es ↔
        ∀ e ∈ es, ∃ v0 v1, subscript e 0 = Except.ok v0 ∧ isReal v0 = true ∧
          subscript e 1 = Except.ok v1 ∧ isPly v1 = true) ∧
    (∀ es : List (PyVal K),
      raisesOn (laminateInit (PyLayup.pyList es)) = true ↔
        ¬ ∀ e ∈ es, ∃ v0 v1, subscript e 0 = Except.ok v0 ∧ isReal v0 = true ∧
          subscript e 1 = Except.ok v1 ∧ isPly v1 = true) ∧
    (∀ es : List (PyVal K), ∀ e,
      laminateInit (PyLayup.pyList es) = Except.error (LamError.badAngle e) →
        e ∈ es ∧ isInvalidInput (LamError.badAngle e) = true ∧
        ∃ v0, subscript e 0 = Except.ok v0 ∧ isReal v0 = false) ∧
    (∀ es : List (PyVal K), ∀ e,
      laminateInit (PyLayup.pyList es) = Except.error (LamError.badPly e) →
        e ∈ es ∧ isInvalidInput (LamError.badPly e) = true ∧
        ∃ v0 v1, subscript e 0 = Except.ok v0 ∧ isReal v0 = true ∧
          subscript e 1 = Except.ok v1 ∧ isPly v1 = false) ∧
    (∀ es : List (PyVal K),
      laminateInit (PyLayup.pyList es) = Except.error LamError.typeError →
        ∃ e ∈ es, subscript e 0 = Except.error LamError.typeError ∧ isPair e = false) ∧
    (∀ es : List (PyVal K),
      laminateInit (PyLayup.pyList es) = Except.error LamError.indexError →
        ∃ e ∈ es, isPair e = false) ∧
    (isInvalidInput (LamError.typeError : LamError K) = false ∧
      isInvalidInput (LamError.indexError : LamError K) = false) := by
  refine ⟨⟨rfl, rfl⟩, ?_, ?_, ?_, ?_, ?_, ?_, rfl, rfl⟩
  · intro es
    rw [laminateInit_pyList_eq]
    rcases validate_dichotomy es with hok | ⟨err, herr⟩
    · rw [hok]
      refine iff_of_true rfl ?_
      intro e he
      exact (checkEntry_ok_iff e).mp ((validate_ok_iff es).mp hok e he)
    · rw [herr]
      refine iff_of_false (by simp) ?_
      intro hall
      obtain ⟨e, he, hce⟩ := validate_error_mem es err herr
      have hok := (checkEntry_ok_iff e).mpr (hall e he)
      rw [hok] at hce
      exact absurd hce (by simp)
  · intro es
    rw [laminateInit_pyList_eq]
    rcases validate_dichotomy es with hok | ⟨err, herr⟩
    · rw [hok]
      refine iff_of_false (by simp [raisesOn]) ?_
      intro hnot
      exact hnot fun e he => (checkEntry_ok_iff e).mp ((validate_ok_iff es).mp hok e he)
    · rw [herr]
      refine iff_of_true rfl ?_
      intro hall
      obtain ⟨e, he, hce⟩ := validate_error_mem es err herr
      have hok := (checkEntry_ok_iff e).mpr (hall e he)
      rw [hok] at hce
      exact absurd hce (by simp)
  · intro es e h
    rw [laminateInit_pyList_eq] at h
    rcases validate_dichotomy es with hok | ⟨err, herr⟩
    · rw [hok] at h
      simp at h
    · rw [herr] at h
      simp only [Except.error.injEq] at h
      subst h
      obtain ⟨f, hf, hcf⟩ := validate_error_mem es _ herr
      obtain ⟨heq, hv⟩ := checkEntry_badAngle_inv f e hcf
      subst heq
      exact ⟨hf, rfl, hv⟩
  · intro es e h
    rw [laminateInit_pyList_eq] at h
    rcases validate_dichotomy es with hok | ⟨err, herr⟩
    · rw [hok] at h
      simp at h
    · rw [herr] at h
      simp only [Except.error.injEq] at h
      subst h
      obtain ⟨f, hf, hcf⟩ := validate_error_mem es _ herr
      obtain ⟨heq, hv⟩ := checkEntry_badPly_inv f e hcf
      subst heq
      exact ⟨hf, rfl, hv⟩
  · intro es h
    rw [laminateInit_pyList_eq] at h
    rcases validate_dichotomy es with hok | ⟨err, herr⟩
    · rw [hok] at h
      simp at h
    · rw [herr] at h
      simp only [Except.error.injEq] at h
      subst h
      obtain ⟨f, hf, hcf⟩ := validate_error_mem es _ herr
      obtain ⟨hs, hp⟩ := checkEntry_typeError_inv f hcf
      exact ⟨f, hf, hs, hp⟩
  · intro es h
    rw [laminateInit_pyList_eq] at h
    rcases validate_dichotomy es with hok | ⟨err, herr⟩
    · rw [hok] at h
      simp at h
    · rw [herr] at h
      simp only [Except.error.injEq] at h
      subst h
      obtain ⟨f, hf, hcf⟩ := validate_error_mem es _ herr
      exact ⟨f, hf, checkEntry_indexError_inv f hcf⟩

/-- Witness for C4 (amended): a proper pair entry with any real angle is
accepted; a pair entry with a non-real first component raises. -/
theorem claim_C4_witness :
    laminateInit (PyLayup.pyList [PyVal.tup [PyVal.real (42 : ℚ), PyVal.plyObj plyQ]]) =
      Except.ok [PyVal.tup [PyVal.real (42 : ℚ), PyVal.plyObj plyQ]] ∧
    raisesOn (laminateInit (PyLayup.pyList
      [PyVal.tup [PyVal.otherAtom, PyVal.plyObj plyQ]])) = true :=
  ⟨(claim_C4_amended.2.1 _).mpr (by
      intro e he
      simp only [List.mem_singleton] at he
      subst he
      exact ⟨PyVal.real (42 : ℚ), PyVal.plyObj plyQ, rfl, rfl, rfl, rfl⟩),
    (claim_C4_amended.2.2.1 _).mpr (by
      intro hall
      obtain ⟨v0, v1, h0, hr, h1, hp⟩ := hall
        (PyVal.tup [PyVal.otherAtom, PyVal.plyObj plyQ]) (by simp)
      simp only [subscript, List.get?] at h0
      obtain rfl : (PyVal.otherAtom : PyVal ℚ) = v0 := by
        simpa using h0
      simp [isReal] at hr)⟩

/-- C6: two laminates compare equal exactly when their layup sequences are
elementwise equal — equal angle and equal ply at every position, in order;
the cached derived matrices play no role in the comparison. -/
theorem claim_C6_equality [DecidableEq K] (s1 s2 : LamState K) :
    (lamEq s1 s2 = true ↔
      (s1.layup.length = s2.layup.length ∧
        ∀ i (h1 : i < s1.layup.length) (h2 : i < s2.layup.length),
          (s1.layup.get ⟨i, h1⟩).1 = (s2.layup.get ⟨i, h2⟩).1 ∧
          (s1.layup.get ⟨i, h1⟩).2 = (s2.layup.get ⟨i, h2⟩).2)) ∧
    (∀ zc qc ac bc dc zc' qc' ac' bc' dc',
      lamEq ⟨s1.layup, zc, qc, ac, bc, dc⟩ ⟨s2.layup, zc', qc', ac', bc', dc'⟩ =
        lamEq s1 s2) := by
  constructor
  · rw [lamEq, decide_eq_true_eq, List.ext_get_iff]
    constructor
    · rintro ⟨hl, hg⟩
      exact ⟨hl, fun i h1 h2 => ⟨by rw [hg i h1 h2], by rw [hg i h1 h2]⟩⟩
    · rintro ⟨hl, hg⟩
      refine ⟨hl, fun i h1 h2 => ?_⟩
      obtain ⟨ha, hp⟩ := hg i h1 h2
      exact Prod.ext ha hp
  · intro zc qc ac bc dc zc' qc' ac' bc' dc'
    rfl

/-- Witness for C6: a laminate equals itself via elementwise layup equality. -/
theorem claim_C6_witness :
    lamEq (initLam demoLayupQ) (initLam demoLayupQ) = true :=
  (claim_C6_equality (initLam demoLayupQ) (initLam demoLayupQ)).1.mpr
    ⟨rfl, fun _ _ _ => ⟨rfl, rfl⟩⟩

/-- C7 counterexample: after the first access of `z_position` on a freshly
constructed laminate, nothing has been cached — the `_z_position` slot is
still `None`, so no later access can return a cached value. -/
theorem claim_C7_counterexample :
    (zAccess (initLam demoLayupQ)).2.z_cache = none ∧
    (zAccess (initLam demoLayupQ)).2.z_cache ≠
      some ((zAccess (initLam demoLayupQ)).1) := by
  exact ⟨rfl, by simp [zAccess, initLam]⟩

/-- C7 (amended): `z_position` is recomputed on every access — the accessor
returns the freshly computed list and leaves the object state unchanged, so
its cache slot is never written and every access returns the same value —
while the other derived state (`Q_layup`, `A`, `B`, `D`) is cached on first
access: a second access returns the first access's value and leaves the
state unchanged. -/
theorem claim_C7_amended (tr : Trig K) (s : LamState K) :
    zAccess s = (z_position s.layup, s) ∧
    qAccess tr ((qAccess tr s).2) = ((qAccess tr s).1, (qAccess tr s).2) ∧
    aAccess tr ((aAccess tr s).2) = ((aAccess tr s).1, (aAccess tr s).2) ∧
    bAccess tr ((bAccess tr s).2) = ((bAccess tr s).1, (bAccess tr s).2) ∧
    dAccess tr ((dAccess tr s).2) = ((dAccess tr s).1, (dAccess tr s).2) := by
  refine ⟨rfl, ?_, ?_, ?_, ?_⟩
  · cases hq : s.q_cache with
    | some q => simp [qAccess, hq]
    | none => simp [qAccess, hq]
  · cases ha : s.a_cache with
    | some a => simp [aAccess, ha]
    | none =>
        cases hq : s.q_cache with
        | some q => simp [aAccess, qAccess, ha, hq]
        | none => simp [aAccess, qAccess, ha, hq]
  · cases hb : s.b_cache with
    | some b => simp [bAccess, hb]
    | none =>
        cases hq : s.q_cache with
        | some q => simp [bAccess, qAccess, hb, hq]
        | none => simp [bAccess, qAccess, hb, hq]
  · cases hd : s.d_cache with
    | some d => simp [dAccess, hd]
    | none =>
        cases hq : s.q_cache with
        | some q => simp [dAccess, qAccess, hd, hq]
        | none => simp [dAccess, qAccess, hd, hq]

/-- C10: constructing a laminate from the empty layup succeeds, its
`z_position` is the single-entry list `[0]`, and A, B and D are all the 3×3
zero matrix. -/
theorem claim_C10_empty_layup (tr : Trig K) :
    laminateInit (PyLayup.pyList ([] : List (PyVal K))) = Except.ok [] ∧
    z_position ([] : Layup K) = [0] ∧
    Amat tr ([] : Layup K) = 0 ∧
    Bmat tr ([] : Layup K) = 0 ∧
    Dmat tr ([] : Layup K) = 0 := by
  refine ⟨rfl, ?_, rfl, rfl, rfl⟩
  simp [z_position, zFrom, totalThickness]

/-- C5: for every layup symmetric about its midplane — entry `i` equals
entry `N-1-i` (same angle, same ply) for every `i` — the laminate's B matrix
is the zero matrix. -/
theorem claim_C5_symmetric_B_zero (l : Layup ℝ)
    (hsym : ∀ i (hi : i < l.length) (hi' : l.length - 1 - i < l.length),
      l.get ⟨i, hi⟩ = l.get ⟨l.length - 1 - i, hi'⟩) :
    Bmat ⟨Real.cos, Real.sin, Real.pi⟩ l = 0 := by
  rcases Nat.eq_zero_or_pos l.length with hn | hn
  · have hnil : l = [] := List.eq_nil_of_length_eq_zero hn
    subst hnil
    rfl
  · have hpal : ∀ j, j < l.length →
        (tlist l).getD j 0 = (tlist l).getD (l.length - 1 - j) 0 := by
      intro j hj
      have hj' : l.length - 1 - j < l.length := by omega
      rw [tlist_getD l j hj, tlist_getD l _ hj', hsym j hj hj']
    have hz : ∀ k, k ≤ l.length →
        (z_position l).getD (l.length - k) 0 = -((z_position l).getD k 0) :=
      fun k hk => z_position_reflect l (by norm_num) hpal k hk
    rw [Bmat_eq_sum]
    set f : Nat → Mat3 ℝ := fun i =>
      (1 / 2 * ((z_position l).getD (i + 1) 0 ^ 2 - (z_position l).getD i 0 ^ 2)) •
        (Q_layup ⟨Real.cos, Real.sin, Real.pi⟩ l).getD i 0 with hf
    have hneg : ∀ i ∈ Finset.range l.length, f (l.length - 1 - i) = -(f i) := by
      intro i hi0
      have hi : i < l.length := Finset.mem_range.mp hi0
      have hi' : l.length - 1 - i < l.length := by omega
      have h1 : l.length - 1 - i + 1 = l.length - i := by omega
      have h2 := hz i (le_of_lt hi)
      have h3 : (z_position l).getD (l.length - 1 - i) 0 =
          -((z_position l).getD (i + 1) 0) := by
        have he : l.length - 1 - i = l.length - (i + 1) := by omega
        rw [he]
        exact hz (i + 1) hi
      have hQ : (Q_layup ⟨Real.cos, Real.sin, Real.pi⟩ l).getD (l.length - 1 - i) 0 =
          (Q_layup ⟨Real.cos, Real.sin, Real.pi⟩ l).getD i 0 :=
        Q_layup_getD_congr _ l _ i hi' hi (hsym i hi hi').symm
      rw [hf]
      dsimp only
      rw [h1, h2, h3, hQ, ← neg_smul]
      congr 1
      ring
    have hrefl := Finset.sum_range_reflect f l.length
    have hBneg : (∑ i ∈ Finset.range l.length, f i) =
        -(∑ i ∈ Finset.range l.length, f i) := by
      conv_lhs => rw [← hrefl]
      rw [Finset.sum_congr rfl hneg]
      exact Finset.sum_neg_distrib
    have hsum0 : (∑ i ∈ Finset.range l.length, f i) +
        (∑ i ∈ Finset.range l.length, f i) = 0 := by
      nth_rewrite 2 [hBneg]
      exact add_neg_cancel _
    ext a b
    have hab : ((∑ i ∈ Finset.range l.length, f i) +
        (∑ i ∈ Finset.range l.length, f i)) a b = (0 : Mat3 ℝ) a b := by
      rw [hsum0]
    simp only [Matrix.add_apply, Matrix.zero_apply] at hab ⊢
    linarith

/-- Witness for C5 at the symmetric two-ply layup `[(0, p), (0, p)]`. -/
theorem claim_C5_witness :
    Bmat ⟨Real.cos, Real.sin, Real.pi⟩ demoSymLayup = 0 :=
  claim_C5_symmetric_B_zero demoSymLayup (by
    intro i hi hi'
    have h2 : i < 2 := by simpa [demoSymLayup] using hi
    interval_cases i
    · rfl
    · rfl)

end MimoComposipy

namespace MimoComposipy

variable {K : Type} [LinearOrderedField K]

theorem zFrom_chain (l : Layup K) (hpos : ∀ e ∈ l, 0 < e.2.thickness) :
    ∀ z : K, List.Chain' (· < ·) (zFrom z l) := by
  induction l with
  | nil => intro z; simp [zFrom]
  | cons e rest ih =>
      intro z
      have hpos' : ∀ x ∈ rest, 0 < x.2.thickness := fun x hx => hpos x (by simp [hx])
      have htail := ih hpos' (z + e.2.thickness)
      have hlt : z < z + e.2.thickness := by
        have := hpos e (by simp)
        exact lt_add_of_pos_right z this
      cases rest with
      | nil => simpa [zFrom] using hlt
      | cons f r =>
          simp only [zFrom, List.chain'_cons] at htail ⊢
          exact ⟨hlt, htail⟩

/-- C3: `z_position` has N+1 entries; its first entry is
`-total_thickness/2` and its last is `total_thickness/2`, where
`total_thickness` is the sum of the ply thicknesses; consecutive differences
equal the ply thicknesses; and with all thicknesses positive the sequence is
strictly increasing. -/
theorem claim_C3_z_position (l : Layup K) :
    (z_position l).length = l.length + 1 ∧
    (z_position l).getD 0 0 = -(totalThickness l) / 2 ∧
    totalThickness l = (tlist l).sum ∧
    (z_position l).getD l.length 0 = totalThickness l / 2 ∧
    (∀ i (hi : i < l.length),
      (z_position l).getD (i + 1) 0 - (z_position l).getD i 0 =
        (l.get ⟨i, hi⟩).2.thickness) ∧
    ((∀ e ∈ l, 0 < e.2.thickness) → List.Chain' (· < ·) (z_position l)) := by
  refine ⟨z_position_length l, zFrom_head l _, totalThickness_eq_sum l,
    z_position_last l (by norm_num), ?_, ?_⟩
  · intro i hi
    rw [z_position_diff l i hi, tlist_getD l i hi]
  · intro hpos
    exact zFrom_chain l hpos _

/-- Witness for C3 at the one-ply layup `[(0, plyQ)]`. -/
theorem claim_C3_witness :
    (z_position demoLayupQ).length = 2 ∧
    (z_position demoLayupQ).getD 1 0 - (z_position demoLayupQ).getD 0 0 = 1 ∧
    List.Chain' (· < ·) (z_position demoLayupQ) := by
  have h := claim_C3_z_position (K := ℚ) demoLayupQ
  refine ⟨h.1, ?_, h.2.2.2.2.2 ?_⟩
  · exact h.2.2.2.2.1 0 (by decide)
  · intro e he
    simp only [demoLayupQ, List.mem_singleton] at he
    subst he
    decide

end MimoComposipy
